import Mathlib

/-
Verification of the PDE option-pricing core in src/python/pde_service/main.py.

The Python module is embedded shallowly over the real numbers: numpy double
arithmetic is idealised as exact real arithmetic, numpy arrays of reals become
functions from array indices to reals (together with explicit lengths), and
the two snapshot buffers of the time stepper become explicit snapshot values
indexed by the step count.  Exceptions are modelled with Except/Option where
the source can raise.
-/

set_option autoImplicit false
set_option maxHeartbeats 1000000
set_option maxRecDepth 8000

noncomputable section

namespace PDE

/-- Option kind, from the validated request: the validator lowercases the
string and only admits "call" and "put". -/
inductive OptionType where
  | call : OptionType
  | put : OptionType
deriving DecidableEq

/-! ## Tridiagonal solver (`solve_tridiagonal`, main.py lines 195-229)

The Thomas algorithm on vectors `lower`, `diag`, `upper`, `rhs` of length `n`.
Mutable arrays `c_prime`, `d_prime`, `solution` are embedded as recursively
defined functions of the index.  `guard` is the numerical floor applied to
every pivot denominator before it is divided by. -/

/-- The pivot floor: `if abs(denom) < 1e-12: denom = 1e-12 if denom >= 0 else -1e-12`. -/
def guard (d : ℝ) : ℝ :=
  if |d| < 1e-12 then (if 0 ≤ d then 1e-12 else -1e-12) else d

/-- The raw (unfloored) pivot denominator of row `i` of the forward sweep:
`diag[0]` for row 0 and `diag[i] - lower[i] * c_prime[i-1]` for later rows,
where `c_prime[i-1]` is `upper[i-1]` divided by the floored denominator of the
previous row when the source assigned that cell (`i-1 < n-1`) and the array's
initial `0.0` otherwise. -/
def denomRaw (lower diag upper : ℕ → ℝ) (n : ℕ) : ℕ → ℝ
  | 0 => diag 0
  | i + 1 =>
      diag (i + 1) -
        lower (i + 1) *
          (if i < n - 1 then upper i / guard (denomRaw lower diag upper n i) else 0)

/-- The floored pivot denominator actually divided by in row `i`. -/
def denom (lower diag upper : ℕ → ℝ) (n : ℕ) (i : ℕ) : ℝ :=
  guard (denomRaw lower diag upper n i)

/-- Source: `c_prime[i]`: assigned `upper[i] / denom` for `i < n-1` (the source guards
index 0 with `n > 1` and later indices with `i < n - 1`, which agree), and
left at the array's initial `0.0` otherwise. -/
def cprime (lower diag upper : ℕ → ℝ) (n : ℕ) (i : ℕ) : ℝ :=
  if i < n - 1 then upper i / denom lower diag upper n i else 0

/-- Source: `d_prime[i]` of the forward sweep. -/
def dprime (lower diag upper rhs : ℕ → ℝ) (n : ℕ) : ℕ → ℝ
  | 0 => rhs 0 / denom lower diag upper n 0
  | i + 1 =>
      (rhs (i + 1) - lower (i + 1) * dprime lower diag upper rhs n i) /
        denom lower diag upper n (i + 1)

/-- Back substitution, indexed by the distance `k` from the last row:
`backAux 0` is `solution[n-1] = d_prime[n-1]` and `backAux (k+1)` is
`solution[n-1-(k+1)] = d_prime[i] - c_prime[i] * solution[i+1]`. -/
def backAux (lower diag upper rhs : ℕ → ℝ) (n : ℕ) : ℕ → ℝ
  | 0 => dprime lower diag upper rhs n (n - 1)
  | k + 1 =>
      dprime lower diag upper rhs n (n - 1 - (k + 1)) -
        cprime lower diag upper n (n - 1 - (k + 1)) *
          backAux lower diag upper rhs n k

/-- Source: `solution[i]` of the back substitution, as a function of the row index. -/
def thomasX (lower diag upper rhs : ℕ → ℝ) (n : ℕ) (i : ℕ) : ℝ :=
  backAux lower diag upper rhs n (n - 1 - i)

/-- Source: `solve_tridiagonal`: returns the empty vector when `n = 0`, and otherwise
the solution vector of the Thomas algorithm. -/
def solve_tridiagonal (lower diag upper rhs : ℕ → ℝ) (n : ℕ) : List ℝ :=
  if n = 0 then [] else (List.range n).map (thomasX lower diag upper rhs n)

/-- Row `j` of the product `T·x` for the `n × n` tridiagonal matrix `T` formed
from the three vectors, with `lower 0` and `upper (n-1)` ignored. -/
def tridiagMul (lower diag upper x : ℕ → ℝ) (n : ℕ) (j : ℕ) : ℝ :=
  (if j = 0 then 0 else lower j * x (j - 1)) + diag j * x j +
    (if j = n - 1 then 0 else upper j * x (j + 1))

/-! ## Crank-Nicolson solve (`crank_nicolson_price`, main.py lines 71-192)

The keyword arguments of `crank_nicolson_price` together with the resolved
`SolverConfig` are bundled into one record.  The spatial grid, the terminal
payoff, the interior coefficient arrays and the two boundary conditions are
direct transcriptions; the time loop that rotates the two snapshot buffers
becomes the recursion `cnSnap`, whose value at `k` is the contents of `v_curr`
at the top of loop iteration `k` (before that iteration's boundary pinning),
and at `n_time` is the returned solution. -/

/-- Inputs of one Crank-Nicolson solve: the pricing parameters plus the
resolved solver configuration `(n_space, n_time, s_max_multiplier)`. -/
structure CNInputs where
  optionType : OptionType
  spot : ℝ
  strike : ℝ
  expiry : ℝ
  riskFreeRate : ℝ
  dividendYield : ℝ
  volatility : ℝ
  nSpace : ℕ
  nTime : ℕ
  sMaxMultiplier : ℝ

variable (P : CNInputs)

/-- Source: `s_max_seed = max(spot, strike, 1.0)`. -/
def sMaxSeed : ℝ := max (max P.spot P.strike) 1.0

/-- Source: `s_max = s_max_multiplier * s_max_seed`. -/
def sMax : ℝ := P.sMaxMultiplier * sMaxSeed P

/-- Source: `d_s = s_max / n_space`. -/
def dS : ℝ := sMax P / P.nSpace

/-- Source: `d_tau = expiry / n_time`. -/
def dTau : ℝ := P.expiry / P.nTime

/-- Source: `s_grid = np.linspace(0.0, s_max, n_space + 1)`, i.e. node `i` sits at
`i * d_s` (exact arithmetic). -/
def sGrid (i : ℕ) : ℝ := i * dS P

/-- Terminal payoff: `max(s - K, 0)` for a call, `max(K - s, 0)` for a put. -/
def payoff (i : ℕ) : ℝ :=
  match P.optionType with
  | .call => max (sGrid P i - P.strike) 0.0
  | .put => max (P.strike - sGrid P i) 0.0

/-- Source: `s_vals = i_vals * d_s` with `i_vals = np.arange(1, n_space)`: entry `j`
of the interior arrays corresponds to spatial node `j + 1`. -/
def sVals (j : ℕ) : ℝ := (j + 1 : ℕ) * dS P

/-- Source: `alpha = 0.25 * d_tau * (sigma_sq * s**2 / d_s**2 - (r - q) * s / d_s)`. -/
def alpha (j : ℕ) : ℝ :=
  0.25 * dTau P *
    (P.volatility * P.volatility * (sVals P j) ^ 2 / (dS P) ^ 2 -
      (P.riskFreeRate - P.dividendYield) * sVals P j / dS P)

/-- Source: `beta = -0.5 * d_tau * (sigma_sq * s**2 / d_s**2 + r)`. -/
def beta (j : ℕ) : ℝ :=
  -0.5 * dTau P *
    (P.volatility * P.volatility * (sVals P j) ^ 2 / (dS P) ^ 2 + P.riskFreeRate)

/-- Source: `gamma = 0.25 * d_tau * (sigma_sq * s**2 / d_s**2 + (r - q) * s / d_s)`. -/
def gamma (j : ℕ) : ℝ :=
  0.25 * dTau P *
    (P.volatility * P.volatility * (sVals P j) ^ 2 / (dS P) ^ 2 +
      (P.riskFreeRate - P.dividendYield) * sVals P j / dS P)

/-- Implicit sub-diagonal `A = -alpha`. -/
def Acoef (j : ℕ) : ℝ := -alpha P j

/-- Implicit main diagonal `B = 1.0 - beta`. -/
def Bcoef (j : ℕ) : ℝ := 1.0 - beta P j

/-- Implicit super-diagonal `C = -gamma`. -/
def Ccoef (j : ℕ) : ℝ := -gamma P j

/-- Explicit sub-diagonal `D = alpha`. -/
def Dcoef (j : ℕ) : ℝ := alpha P j

/-- Explicit main diagonal `E = 1.0 + beta`. -/
def Ecoef (j : ℕ) : ℝ := 1.0 + beta P j

/-- Explicit super-diagonal `F = gamma`. -/
def Fcoef (j : ℕ) : ℝ := gamma P j

/-- Number of interior unknowns, `n_space - 1` (the length of the arrays
passed to `solve_tridiagonal`). -/
def mInterior : ℕ := P.nSpace - 1

/-- Source: `lower = np.zeros(n_space - 1); lower[1:] = A[1:]`. -/
def lowerArr (j : ℕ) : ℝ := if j = 0 then 0 else Acoef P j

/-- Source: `diag = B.copy()`. -/
def diagArr (j : ℕ) : ℝ := Bcoef P j

/-- Source: `upper = np.zeros(n_space - 1); upper[:-1] = C[:-1]`. -/
def upperArr (j : ℕ) : ℝ := if j = mInterior P - 1 then 0 else Ccoef P j

/-- Lower boundary value at backward time `tau`: `0` for a call,
`strike * exp(-r * tau)` for a put. -/
def lowerBC (tau : ℝ) : ℝ :=
  match P.optionType with
  | .call => 0.0
  | .put => P.strike * Real.exp (-P.riskFreeRate * tau)

/-- Upper boundary value at backward time `tau`:
`s_max * exp(-q * tau) - strike * exp(-r * tau)` for a call, `0` for a put. -/
def upperBC (tau : ℝ) : ℝ :=
  match P.optionType with
  | .call => sMax P * Real.exp (-P.dividendYield * tau) - P.strike * Real.exp (-P.riskFreeRate * tau)
  | .put => 0.0

/-- Writing the two boundary cells of a length-`n+1` snapshot: index 0 is
written first and index `n` second, so at `n = 0` the second write wins,
exactly as for the two sequential assignments in the source. -/
def pinBoundary (n : ℕ) (lo hi : ℝ) (v : ℕ → ℝ) : ℕ → ℝ :=
  fun i => if i = n then hi else if i = 0 then lo else v i

/-- Source: `v_curr` after the boundary pinning at the top of a loop iteration. -/
def pinned (v : ℕ → ℝ) (tau : ℝ) : ℕ → ℝ :=
  pinBoundary P.nSpace (lowerBC P tau) (upperBC P tau) v

/-- The slice assignment `v_next[1:-1] = x`: cells `1 .. n-1` take the solver
output (shifted by one), all other cells keep the buffer contents `v`. -/
def writeInterior (n : ℕ) (v x : ℕ → ℝ) : ℕ → ℝ :=
  fun i => if 1 ≤ i ∧ i ≤ n - 1 then x (i - 1) else v i

/-- The adjusted right-hand side handed to `solve_tridiagonal` at a step whose
pinned current snapshot is `v` and whose next backward time is `tauNext`:
`rhs = D*v[:-2] + E*v[1:-1] + F*v[2:]`, then
`rhs[0] -= A[0]*lower_bc_next` and `rhs[-1] -= C[-1]*upper_bc_next`
(for a single interior unknown both adjustments hit the same cell). -/
def rhsAdj (v : ℕ → ℝ) (tauNext : ℝ) (j : ℕ) : ℝ :=
  Dcoef P j * v j + Ecoef P j * v (j + 1) + Fcoef P j * v (j + 2) -
    (if j = 0 then Acoef P 0 * lowerBC P tauNext else 0) -
    (if j = mInterior P - 1 then Ccoef P (mInterior P - 1) * upperBC P tauNext else 0)

/-- The right-hand side of step `k` from the snapshot `v` at the top of the
step (`tau = step * d_tau`, `tau_next = tau + d_tau`). -/
def stepRhs (v : ℕ → ℝ) (k : ℕ) (j : ℕ) : ℝ :=
  rhsAdj P (pinned P v ((k : ℕ) * dTau P)) ((k : ℕ) * dTau P + dTau P) j

/-- Source: `v_next_interiors = solve_tridiagonal(lower, diag, upper, rhs_vector)` at
step `k` from snapshot `v`. -/
def stepSolve (v : ℕ → ℝ) (k : ℕ) : List ℝ :=
  solve_tridiagonal (lowerArr P) (diagArr P) (upperArr P) (stepRhs P v k) (mInterior P)

/-- One loop iteration: pin the boundaries of `v_curr` at `tau`, write the
boundary cells of `v_next` at `tau_next`, then write the interior solve into
`v_next[1:-1]`.  Every cell of `v_next` in range is (re)written, so the
previous buffer contents are unobservable; the pinned current snapshot is
threaded as the base to keep the definition total. -/
def cnStep (v : ℕ → ℝ) (k : ℕ) : ℕ → ℝ :=
  writeInterior P.nSpace
    (pinBoundary P.nSpace (lowerBC P ((k : ℕ) * dTau P + dTau P))
      (upperBC P ((k : ℕ) * dTau P + dTau P)) (pinned P v ((k : ℕ) * dTau P)))
    (fun j => (stepSolve P v k).getD j 0)

/-- The snapshot held by `v_curr` at the top of iteration `k` (so `cnSnap 0`
is the terminal payoff and `cnSnap n_time` is the returned solution). -/
def cnSnap : ℕ → ℕ → ℝ
  | 0 => payoff P
  | k + 1 => cnStep P (cnSnap k) k

/-- The solution at `tau = expiry` returned by the loop. -/
def solution : ℕ → ℝ := cnSnap P P.nTime

/-- Source: `first_step`: the copy of `v_next` captured at step 0, or the solution
itself when the loop never ran. -/
def firstStep : ℕ → ℝ :=
  if P.nTime = 0 then solution P else cnSnap P 1

/-- Entry `j` of `lhs - rhs_vector` of the residual check of step `k`:
`lhs = A*v_next[:-2] + B*v_next[1:-1] + C*v_next[2:]` with `v_next` the fully
written next snapshot, and `rhs_vector` the adjusted right-hand side. -/
def stepResidualDiff (k : ℕ) (j : ℕ) : ℝ :=
  Acoef P j * cnSnap P (k + 1) j + Bcoef P j * cnSnap P (k + 1) (j + 1) +
      Ccoef P j * cnSnap P (k + 1) (j + 2) -
    stepRhs P (cnSnap P k) k j

/-- The l-infinity norm of the first `m` entries of `f` (as a `max`-fold with
initial value 0, matching `np.linalg.norm(-, ord=np.inf)` on a nonempty
vector). -/
def linf (f : ℕ → ℝ) (m : ℕ) : ℝ :=
  (List.range m).foldl (fun acc j => max acc |f j|) 0

/-- Source: `float(np.linalg.norm(lhs - rhs_vector, ord=np.inf))` at step `k`. -/
def stepResidual (k : ℕ) : ℝ := linf (stepResidualDiff P k) (mInterior P)

/-- Source: `residual_norm`: the running maximum of the per-step residual norms,
starting from `0.0`. -/
def residualNorm : ℝ :=
  (List.range P.nTime).foldl (fun acc k => max acc (stepResidual P k)) 0

/-- Source: `boundary_spread = float(np.abs(solution[0]) + np.abs(solution[-1]))`. -/
def boundarySpread : ℝ := |solution P 0| + |solution P P.nSpace|

/-! ## Post-processing (`interpolate_value`, `finite_difference`,
`bump_and_price`, main.py lines 232-288) -/

/-- Source: `np.searchsorted(grid, x)` (left insertion point): on a sorted vector of
length `size` this is the number of entries strictly below `x`. -/
def searchsorted (grid : ℕ → ℝ) (size : ℕ) (x : ℝ) : ℕ :=
  (List.range size).countP (fun i => decide (grid i < x))

/-- Source: `interpolate_value = float(np.interp(spot, s_grid, values))` on the
strictly increasing grid `grid 0 < grid 1 < ... < grid n`: clamp below
`grid 0` and above `grid n`, and interpolate linearly on the containing
segment otherwise. -/
def interpolate_value (grid vals : ℕ → ℝ) (n : ℕ) (x : ℝ) : ℝ :=
  if x ≤ grid 0 then vals 0
  else if grid n ≤ x then vals n
  else
    let j := (List.range n).countP (fun i => decide (grid (i + 1) ≤ x))
    vals j + (vals (j + 1) - vals j) * (x - grid j) / (grid (j + 1) - grid j)

/-- Source: `finite_difference`: `None` (absent) when the vector has fewer than 3
nodes, otherwise the order-1 or order-2 central difference at the clamped
index nearest the spot; any other order raises `ValueError`, modelled as the
`Except.error` branch. -/
def finite_difference (values grid : ℕ → ℝ) (size : ℕ) (spot : ℝ)
    (order : ℕ) : Except String (Option ℝ) :=
  if size < 3 then .ok none
  else
    let idx := min (max (searchsorted grid size spot) 1) (size - 2)
    let vm := values (idx - 1)
    let v0 := values idx
    let vp := values (idx + 1)
    let ds := grid 1 - grid 0
    if order = 1 then .ok (some ((vp - vm) / (2.0 * ds)))
    else if order = 2 then .ok (some ((vp - 2.0 * v0 + vm) / (ds * ds)))
    else .error "order must be 1 or 2"

/-- Extracting the value of a `finite_difference` call that cannot raise: the
orchestrator only passes the orders 1 and 2, for which the `ValueError`
branch is unreachable (`finite_difference_order_ok` below). -/
def fdValue (r : Except String (Option ℝ)) : Option ℝ :=
  match r with
  | .ok v => v
  | .error _ => none

/-- Source: `bump_and_price`: apply the optional volatility and rate bumps (a missing
bump contributes `0.0`, as does Python's falsy `0.0`), clamp the bumped
volatility at `1e-4`, rerun the Crank-Nicolson solve with the same
configuration and interpolate at the spot. -/
def bump_and_price (P : CNInputs) (bumpSigma bumpRate : Option ℝ) : ℝ :=
  let sigma := max (P.volatility + bumpSigma.getD 0.0) 1e-4
  let rate := P.riskFreeRate + bumpRate.getD 0.0
  let Q : CNInputs := { P with volatility := sigma, riskFreeRate := rate }
  interpolate_value (sGrid Q) (solution Q) Q.nSpace P.spot

/-! ## Orchestrator (`solve_black_scholes_pde`, main.py lines 291-427)

The validated request and the result payloads are transcribed as records; the
two human-readable warning strings become the two constructors of `Warning`
(the `%.2e`-formatted residual value is carried as the real payload of
`Warning.highResidual`; decimal string formatting itself is outside the
embedding).  The two `try/except` blocks around the Vega and Rho bump
reprices are modelled by an `attempt` oracle that returns `none` exactly when
the corresponding `bump_and_price` call would have raised; the actual
function `solve_black_scholes_pde` instantiates the oracle with the total
embedded `bump_and_price`, which never fails. -/

/-- The validated pricing request (`PDERequest`): symbolic fields plus the
optional grid overrides. -/
structure PDERequest where
  symbol : String
  option_type : OptionType
  spot : ℝ
  strike : ℝ
  expiry : ℝ
  volatility : ℝ
  risk_free_rate : ℝ
  dividend_yield : ℝ
  quantity : ℤ
  grid_size : Option ℕ
  time_steps : Option ℕ
  s_max_multiplier : Option ℝ

/-- The Greeks record; each field is optional (absent = unreported). -/
structure GreekPayload where
  delta : Option ℝ
  gamma : Option ℝ
  theta : Option ℝ
  vega : Option ℝ
  rho : Option ℝ

/-- The diagnostics record. -/
structure DiagnosticsPayload where
  grid_points : ℕ
  time_steps : ℕ
  residual_norm : ℝ
  runtime_ms : Option ℝ
  boundary_spread : ℝ
  s_max : ℝ

/-- The two possible warnings, in the source's wording:
`highResidual v` is "High residual norm detected (<v>); consider increasing
grid resolution." and `boundarySpreadLarge` is "Boundary spread is large;
increase s_max_multiplier or check inputs.". -/
inductive Warning where
  | highResidual : ℝ → Warning
  | boundarySpreadLarge : Warning
deriving DecidableEq

/-- The pricing result (`PDEOutput`). -/
structure PDEOutput where
  symbol : String
  option_type : OptionType
  fair_value : ℝ
  price : ℝ
  quantity : ℤ
  greeks : GreekPayload
  diagnostics : DiagnosticsPayload
  warnings : List Warning

/-- Python's `value or default` on an optional integer field: `None` and the
falsy `0` both resolve to the default. -/
def orDefaultNat (o : Option ℕ) (d : ℕ) : ℕ :=
  match o with
  | none => d
  | some v => if v = 0 then d else v

/-- Python's `value or default` on an optional float field. -/
def orDefaultReal (o : Option ℝ) (d : ℝ) : ℝ :=
  match o with
  | none => d
  | some v => if v = 0 then d else v

/-- The solve inputs resolved from a request:
`grid_points = request.grid_size or 400`, `time_steps = request.time_steps or
800`, `s_max_multiplier = request.s_max_multiplier or 6.0`. -/
def requestInputs (req : PDERequest) : CNInputs :=
  { optionType := req.option_type
    spot := req.spot
    strike := req.strike
    expiry := req.expiry
    riskFreeRate := req.risk_free_rate
    dividendYield := req.dividend_yield
    volatility := req.volatility
    nSpace := orDefaultNat req.grid_size 400
    nTime := orDefaultNat req.time_steps 800
    sMaxMultiplier := orDefaultReal req.s_max_multiplier 6.0 }

/-- Source: `fair_value = interpolate_value(s_grid, solution, request.spot)`. -/
def fairValueOf (req : PDERequest) : ℝ :=
  interpolate_value (sGrid (requestInputs req)) (solution (requestInputs req))
    (requestInputs req).nSpace req.spot

/-- Source: `delta = finite_difference(solution, s_grid, request.spot, order=1)`
(the solution vector has `n_space + 1` nodes). -/
def deltaOf (req : PDERequest) : Option ℝ :=
  fdValue (finite_difference (solution (requestInputs req)) (sGrid (requestInputs req))
    ((requestInputs req).nSpace + 1) req.spot 1)

/-- Source: `gamma = finite_difference(solution, s_grid, request.spot, order=2)`. -/
def gammaOf (req : PDERequest) : Option ℝ :=
  fdValue (finite_difference (solution (requestInputs req)) (sGrid (requestInputs req))
    ((requestInputs req).nSpace + 1) req.spot 2)

/-- Theta: absent when `expiry <= 1e-6`, otherwise
`-(value_tau_dt - fair_value) / dt` with `dt = expiry / n_time` and
`value_tau_dt` the first-step snapshot interpolated at the spot. -/
def thetaOf (req : PDERequest) : Option ℝ :=
  if req.expiry > 1e-6 then
    some (-(interpolate_value (sGrid (requestInputs req)) (firstStep (requestInputs req))
        (requestInputs req).nSpace req.spot - fairValueOf req) /
      (req.expiry / (requestInputs req).nTime))
  else none

/-- Source: `bump_size_sigma = max(1e-4, 0.01 * request.volatility)`. -/
def bumpSigmaSize (req : PDERequest) : ℝ := max 1e-4 (0.01 * req.volatility)

/-- Source: `bump_size_rate = 1e-4`. -/
def bumpRateSize : ℝ := 1e-4

/-- Vega from a bump oracle: the `try` block succeeds only when both bumped
reprices return a value, and any exception yields an absent Vega. -/
def vegaWith (req : PDERequest) (attempt : Option ℝ → Option ℝ → Option ℝ) : Option ℝ :=
  match attempt (some (bumpSigmaSize req)) none,
      attempt (some (-bumpSigmaSize req)) none with
  | some priceUp, some priceDown =>
      some ((priceUp - priceDown) / (2.0 * bumpSigmaSize req))
  | _, _ => none

/-- Rho from a bump oracle, as for `vegaWith` (the request only fixes which
solve the oracle reprices). -/
def rhoWith (_req : PDERequest) (attempt : Option ℝ → Option ℝ → Option ℝ) : Option ℝ :=
  match attempt none (some bumpRateSize), attempt none (some (-bumpRateSize)) with
  | some priceUp, some priceDown =>
      some ((priceUp - priceDown) / (2.0 * bumpRateSize))
  | _, _ => none

/-- The diagnostics payload of the result (`runtime_ms` is always `None`). -/
def diagnosticsOf (req : PDERequest) : DiagnosticsPayload :=
  { grid_points := (requestInputs req).nSpace
    time_steps := (requestInputs req).nTime
    residual_norm := residualNorm (requestInputs req)
    runtime_ms := none
    boundary_spread := boundarySpread (requestInputs req)
    s_max := sGrid (requestInputs req) (requestInputs req).nSpace }

/-- The warnings list: first the high-residual warning when
`residual_norm > 1e-3`, then the boundary-spread warning when
`boundary_spread > max(1.0, 0.05 * fair_value)`. -/
def warningsOf (req : PDERequest) : List Warning :=
  (if residualNorm (requestInputs req) > 1e-3 then
      [Warning.highResidual (residualNorm (requestInputs req))] else []) ++
    (if boundarySpread (requestInputs req) > max 1.0 (0.05 * fairValueOf req) then
      [Warning.boundarySpreadLarge] else [])

/-- The orchestrator, parameterised by the bump-reprice oracle used inside
the two `try/except` blocks.  `price = fair_value * quantity if
request.quantity else fair_value` keeps Python's falsy test on the
quantity. -/
def solveWith (req : PDERequest) (attempt : Option ℝ → Option ℝ → Option ℝ) : PDEOutput :=
  { symbol := req.symbol.toUpper
    option_type := req.option_type
    fair_value := fairValueOf req
    price := if req.quantity ≠ 0 then fairValueOf req * (req.quantity : ℝ) else fairValueOf req
    quantity := req.quantity
    greeks :=
      { delta := deltaOf req
        gamma := gammaOf req
        theta := thetaOf req
        vega := vegaWith req attempt
        rho := rhoWith req attempt }
    diagnostics := diagnosticsOf req
    warnings := warningsOf req }

/-- The oracle of the actual source: every bump reprice runs the embedded
(total) `bump_and_price` and succeeds. -/
def honestAttempt (req : PDERequest) : Option ℝ → Option ℝ → Option ℝ :=
  fun bumpSigma bumpRate => some (bump_and_price (requestInputs req) bumpSigma bumpRate)

/-- Source: `solve_black_scholes_pde`. -/
def solve_black_scholes_pde (req : PDERequest) : PDEOutput :=
  solveWith req (honestAttempt req)

/-! ## Concrete instances used below

`P1` is a deliberately tiny solve (a call with `r = q = 0`, so that the
boundary values are rational) on which the residual check can be evaluated in
closed form.  `reqA` is scenario 1 of the specification at the default solver
settings, and `reqB` is the same scenario with `s_max_multiplier = 2.1`. -/

/-- A small call solve: `S0 = K = 1`, `T = 1`, `r = q = 0`, `sigma = 1`,
`N_S = 3`, `N_T = 1`, `s_max_multiplier = 3`. -/
def P1 : CNInputs :=
  { optionType := .call
    spot := 1
    strike := 1
    expiry := 1
    riskFreeRate := 0
    dividendYield := 0
    volatility := 1
    nSpace := 3
    nTime := 1
    sMaxMultiplier := 3 }

/-- Scenario 1 (call, `S0 = K = 100`, `T = 1`, `r = 0.05`, `q = 0`,
`sigma = 0.2`) at the default solver settings. -/
def reqA : PDERequest :=
  { symbol := "ACME"
    option_type := .call
    spot := 100
    strike := 100
    expiry := 1
    volatility := 0.2
    risk_free_rate := 0.05
    dividend_yield := 0
    quantity := 1
    grid_size := none
    time_steps := none
    s_max_multiplier := none }

/-- Scenario 1 with the boundary squeezed in: `s_max_multiplier = 2.1`. -/
def reqB : PDERequest :=
  { reqA with s_max_multiplier := some 2.1 }

/-! ## Helper lemmas about the pivot floor and the forward sweep -/

theorem guard_abs_ge (d : ℝ) : 1e-12 ≤ |guard d| := by
  unfold guard
  by_cases h : |d| < 1e-12
  · rw [if_pos h]
    by_cases h0 : 0 ≤ d
    · rw [if_pos h0, abs_of_pos (by norm_num)]
    · rw [if_neg h0, abs_of_neg (by norm_num)]
      norm_num
  · rw [if_neg h]
    exact le_of_not_lt h

theorem guard_eq_of_ge {d : ℝ} (h : 1e-12 ≤ |d|) : guard d = d := by
  unfold guard
  rw [if_neg (not_lt.mpr h)]

theorem guard_small {d : ℝ} (h : |d| < 1e-12) :
    guard d = if 0 ≤ d then 1e-12 else -1e-12 := by
  unfold guard
  rw [if_pos h]

theorem denomRaw_zero (lower diag upper : ℕ → ℝ) (n : ℕ) :
    denomRaw lower diag upper n 0 = diag 0 := rfl

theorem denomRaw_succ_eq (lower diag upper : ℕ → ℝ) (n i : ℕ) :
    denomRaw lower diag upper n (i + 1) =
      diag (i + 1) - lower (i + 1) * cprime lower diag upper n i := by
  simp only [denomRaw, cprime, denom]

theorem denomRaw_ne_zero {lower diag upper : ℕ → ℝ} {n i : ℕ}
    (h : 1e-12 ≤ |denomRaw lower diag upper n i|) :
    denomRaw lower diag upper n i ≠ 0 := by
  intro h0
  rw [h0, abs_zero] at h
  norm_num at h

theorem dprime_zero_mul (lower diag upper rhs : ℕ → ℝ) (n : ℕ)
    (h : 1e-12 ≤ |denomRaw lower diag upper n 0|) :
    denomRaw lower diag upper n 0 * dprime lower diag upper rhs n 0 = rhs 0 := by
  have hne := denomRaw_ne_zero h
  simp only [dprime, denom, guard_eq_of_ge h]
  field_simp

theorem dprime_succ_mul (lower diag upper rhs : ℕ → ℝ) (n i : ℕ)
    (h : 1e-12 ≤ |denomRaw lower diag upper n (i + 1)|) :
    denomRaw lower diag upper n (i + 1) * dprime lower diag upper rhs n (i + 1) =
      rhs (i + 1) - lower (i + 1) * dprime lower diag upper rhs n i := by
  have hne := denomRaw_ne_zero h
  simp only [dprime, denom, guard_eq_of_ge h]
  field_simp

theorem cprime_mul {lower diag upper : ℕ → ℝ} {n i : ℕ} (hlt : i < n - 1)
    (h : 1e-12 ≤ |denomRaw lower diag upper n i|) :
    cprime lower diag upper n i * denomRaw lower diag upper n i = upper i := by
  have hne := denomRaw_ne_zero h
  simp only [cprime, denom, if_pos hlt, guard_eq_of_ge h]
  field_simp

theorem thomasX_last (lower diag upper rhs : ℕ → ℝ) (n : ℕ) :
    thomasX lower diag upper rhs n (n - 1) = dprime lower diag upper rhs n (n - 1) := by
  unfold thomasX
  rw [Nat.sub_self]
  rfl

theorem thomasX_step (lower diag upper rhs : ℕ → ℝ) (n i : ℕ) (h : i + 1 ≤ n - 1) :
    thomasX lower diag upper rhs n i =
      dprime lower diag upper rhs n i -
        cprime lower diag upper n i * thomasX lower diag upper rhs n (i + 1) := by
  have h2 : n - 1 - i = (n - 1 - (i + 1)) + 1 := by omega
  have h3 : n - 1 - ((n - 1 - (i + 1)) + 1) = i := by omega
  unfold thomasX
  rw [h2]
  simp only [backAux]
  rw [h3]

/-- Exactness of the Thomas algorithm: when every raw pivot denominator has
magnitude at least `1e-12` (so the floor never fires), the back-substituted
solution solves the tridiagonal system row by row. -/
theorem thomas_rows (lower diag upper rhs : ℕ → ℝ) (n : ℕ)
    (H : ∀ i, i < n → 1e-12 ≤ |denomRaw lower diag upper n i|) :
    ∀ j, j < n → tridiagMul lower diag upper (thomasX lower diag upper rhs n) n j = rhs j := by
  intro j hj
  unfold tridiagMul
  rcases Nat.eq_zero_or_pos j with hj0 | hjpos
  · subst hj0
    rw [if_pos rfl]
    by_cases hn1 : n = 1
    · rw [if_pos (by omega)]
      have hx : thomasX lower diag upper rhs n 0 = dprime lower diag upper rhs n 0 := by
        have := thomasX_last lower diag upper rhs n
        rwa [show n - 1 = 0 by omega] at this
      have hd := dprime_zero_mul lower diag upper rhs n (H 0 hj)
      rw [hx]
      rw [denomRaw_zero] at hd
      linarith [hd]
    · rw [if_neg (by omega)]
      have hx := thomasX_step lower diag upper rhs n 0 (by omega)
      rw [hx]
      have hd := dprime_zero_mul lower diag upper rhs n (H 0 hj)
      have hc := @cprime_mul lower diag upper n 0 (by omega) (H 0 hj)
      rw [denomRaw_zero] at hd hc
      linear_combination hd - thomasX lower diag upper rhs n 1 * hc
  · obtain ⟨i, rfl⟩ : ∃ i, j = i + 1 := ⟨j - 1, by omega⟩
    rw [if_neg (by omega)]
    have hdr : denomRaw lower diag upper n (i + 1) =
        diag (i + 1) - lower (i + 1) * cprime lower diag upper n i :=
      denomRaw_succ_eq lower diag upper n i
    have hd := dprime_succ_mul lower diag upper rhs n i (H (i + 1) hj)
    have hxm : thomasX lower diag upper rhs n ((i + 1) - 1) =
        dprime lower diag upper rhs n i -
          cprime lower diag upper n i * thomasX lower diag upper rhs n (i + 1) := by
      rw [Nat.add_sub_cancel]
      exact thomasX_step lower diag upper rhs n i (by omega)
    by_cases hlast : i + 1 = n - 1
    · rw [if_pos hlast]
      have hx1 : thomasX lower diag upper rhs n (i + 1) =
          dprime lower diag upper rhs n (i + 1) := by
        have := thomasX_last lower diag upper rhs n
        rwa [← hlast] at this
      rw [hxm, hx1]
      linear_combination hd - dprime lower diag upper rhs n (i + 1) * hdr
    · rw [if_neg hlast]
      have hc := @cprime_mul lower diag upper n (i + 1) (by omega) (H (i + 1) hj)
      have hx1 := thomasX_step lower diag upper rhs n (i + 1) (by omega)
      rw [hxm, hx1]
      linear_combination hd -
        (dprime lower diag upper rhs n (i + 1) -
            cprime lower diag upper n (i + 1) * thomasX lower diag upper rhs n (i + 1 + 1)) * hdr -
        thomasX lower diag upper rhs n (i + 1 + 1) * hc

theorem solve_tridiagonal_getD (lower diag upper rhs : ℕ → ℝ) (n j : ℕ) (h : j < n) :
    (solve_tridiagonal lower diag upper rhs n).getD j 0 =
      thomasX lower diag upper rhs n j := by
  unfold solve_tridiagonal
  rw [if_neg (by omega)]
  rw [List.getD_eq_getElem _ _ (by simpa using h)]
  simp

/-- Exactness of the Thomas algorithm restated for the returned vector. -/
theorem thomas_rows_getD (lower diag upper rhs : ℕ → ℝ) (n : ℕ)
    (H : ∀ i, i < n → 1e-12 ≤ |denomRaw lower diag upper n i|)
    (j : ℕ) (hj : j < n) :
    tridiagMul lower diag upper
      (fun i => (solve_tridiagonal lower diag upper rhs n).getD i 0) n j = rhs j := by
  have hget : ∀ i, i < n → (solve_tridiagonal lower diag upper rhs n).getD i 0 =
      thomasX lower diag upper rhs n i :=
    fun i hi => solve_tridiagonal_getD lower diag upper rhs n i hi
  rw [← thomas_rows lower diag upper rhs n H j hj]
  simp only [tridiagMul]
  congr 1
  · congr 1
    · by_cases hj0 : j = 0
      · rw [if_pos hj0, if_pos hj0]
      · rw [if_neg hj0, if_neg hj0, hget (j - 1) (by omega)]
    · rw [hget j hj]
  · by_cases hjn : j = n - 1
    · rw [if_pos hjn, if_pos hjn]
    · rw [if_neg hjn, if_neg hjn, hget (j + 1) (by omega)]

/-- Diagonal dominance with margin `1e-12` keeps every raw pivot denominator
at least `|upper|+1e-12` in magnitude and every `c_prime` at most one. -/
theorem denomRaw_bound (lower diag upper : ℕ → ℝ) (n : ℕ)
    (H : ∀ j, j < n → |lower j| + |upper j| + 1e-12 ≤ |diag j|) :
    ∀ j, j < n →
      |upper j| + 1e-12 ≤ |denomRaw lower diag upper n j| ∧
        |cprime lower diag upper n j| ≤ 1 := by
  intro j
  induction j with
  | zero =>
    intro h0
    have hd0 : |upper 0| + 1e-12 ≤ |denomRaw lower diag upper n 0| := by
      rw [denomRaw_zero]
      have := H 0 h0
      have := abs_nonneg (lower 0)
      linarith
    refine ⟨hd0, ?_⟩
    by_cases hlt : 0 < n - 1
    · rw [cprime, if_pos hlt, denom,
        guard_eq_of_ge (by linarith [abs_nonneg (upper 0)]), abs_div]
      rw [div_le_one (by linarith [abs_nonneg (upper 0)])]
      linarith
    · rw [cprime, if_neg hlt]
      simp
  | succ i ih =>
    intro hsn
    have hin : i < n := by omega
    obtain ⟨_, hci⟩ := ih hin
    have hds : |upper (i + 1)| + 1e-12 ≤ |denomRaw lower diag upper n (i + 1)| := by
      rw [denomRaw_succ_eq]
      have h1 := abs_sub_abs_le_abs_sub (diag (i + 1))
        (lower (i + 1) * cprime lower diag upper n i)
      have h2 : |lower (i + 1) * cprime lower diag upper n i| ≤ |lower (i + 1)| := by
        rw [abs_mul]
        calc |lower (i + 1)| * |cprime lower diag upper n i| ≤ |lower (i + 1)| * 1 :=
              mul_le_mul_of_nonneg_left hci (abs_nonneg _)
        _ = |lower (i + 1)| := mul_one _
      have := H (i + 1) hsn
      linarith
    refine ⟨hds, ?_⟩
    by_cases hlt : i + 1 < n - 1
    · rw [cprime, if_pos hlt, denom,
        guard_eq_of_ge (by linarith [abs_nonneg (upper (i + 1))]), abs_div]
      rw [div_le_one (by linarith [abs_nonneg (upper (i + 1))])]
      linarith
    · rw [cprime, if_neg hlt]
      simp

/-- Diagonal dominance with margin `1e-12` means the numerical floor never
fires. -/
theorem no_floor_of_dominant (lower diag upper : ℕ → ℝ) (n : ℕ)
    (H : ∀ j, j < n → |lower j| + |upper j| + 1e-12 ≤ |diag j|) :
    ∀ j, j < n → 1e-12 ≤ |denomRaw lower diag upper n j| := by
  intro j hj
  have := (denomRaw_bound lower diag upper n H j hj).1
  have := abs_nonneg (upper j)
  linarith

/-! ## Helper lemmas about max-folds and snapshot accesses -/

theorem le_foldl_max (g : ℕ → ℝ) (l : List ℕ) (a : ℝ) :
    a ≤ l.foldl (fun acc i => max acc (g i)) a := by
  induction l generalizing a with
  | nil => exact le_refl a
  | cons hd tl ih => exact le_trans (le_max_left a (g hd)) (ih (max a (g hd)))

theorem foldl_max_ge (g : ℕ → ℝ) (l : List ℕ) (a : ℝ) {j : ℕ} (hj : j ∈ l) :
    g j ≤ l.foldl (fun acc i => max acc (g i)) a := by
  induction l generalizing a with
  | nil => cases hj
  | cons hd tl ih =>
    rcases List.mem_cons.mp hj with h | h
    · subst h
      exact le_trans (le_max_right a (g j)) (le_foldl_max g tl (max a (g j)))
    · exact ih _ h

theorem linf_ge (f : ℕ → ℝ) (m j : ℕ) (hj : j < m) : |f j| ≤ linf f m :=
  foldl_max_ge (fun i => |f i|) (List.range m) 0 (List.mem_range.mpr hj)

theorem linf_succ (f : ℕ → ℝ) (m : ℕ) : linf f (m + 1) = max (linf f m) |f m| := by
  unfold linf
  rw [List.range_succ, List.foldl_append]
  rfl

theorem linf_congr {f g : ℕ → ℝ} {m : ℕ} (h : ∀ j, j < m → f j = g j) :
    linf f m = linf g m := by
  induction m with
  | zero => rfl
  | succ k ih =>
    rw [linf_succ, linf_succ, ih (fun j hj => h j (by omega)), h k (by omega)]

theorem stepResidual_le_residualNorm (P : CNInputs) {k : ℕ} (hk : k < P.nTime) :
    stepResidual P k ≤ residualNorm P :=
  foldl_max_ge (stepResidual P) (List.range P.nTime) 0 (List.mem_range.mpr hk)

theorem pinBoundary_zero {n : ℕ} (lo hi : ℝ) (v : ℕ → ℝ) (hn : n ≠ 0) :
    pinBoundary n lo hi v 0 = lo := by
  unfold pinBoundary
  rw [if_neg (fun h => hn h.symm), if_pos rfl]

theorem pinBoundary_top (n : ℕ) (lo hi : ℝ) (v : ℕ → ℝ) :
    pinBoundary n lo hi v n = hi := by
  unfold pinBoundary
  rw [if_pos rfl]

theorem pinBoundary_mid {n i : ℕ} (lo hi : ℝ) (v : ℕ → ℝ) (h0 : i ≠ 0) (hn : i ≠ n) :
    pinBoundary n lo hi v i = v i := by
  unfold pinBoundary
  rw [if_neg hn, if_neg h0]

theorem writeInterior_zero (n : ℕ) (v x : ℕ → ℝ) : writeInterior n v x 0 = v 0 := by
  unfold writeInterior
  rw [if_neg (by omega)]

theorem writeInterior_top (n : ℕ) (v x : ℕ → ℝ) (hn : 1 ≤ n) :
    writeInterior n v x n = v n := by
  unfold writeInterior
  rw [if_neg (by omega)]

theorem writeInterior_interior (n : ℕ) (v x : ℕ → ℝ) {i : ℕ} (h1 : 1 ≤ i)
    (h2 : i ≤ n - 1) : writeInterior n v x i = x (i - 1) := by
  unfold writeInterior
  rw [if_pos ⟨h1, h2⟩]

theorem cnSnap_succ (P : CNInputs) (k : ℕ) :
    cnSnap P (k + 1) = cnStep P (cnSnap P k) k := by
  simp only [cnSnap]

/-- The lower boundary cell of every post-step snapshot holds the oracle
value at the step's next backward time. -/
theorem cnSnap_succ_zero (P : CNInputs) (hn : 1 ≤ P.nSpace) (k : ℕ) :
    cnSnap P (k + 1) 0 = lowerBC P ((k : ℕ) * dTau P + dTau P) := by
  rw [cnSnap_succ]
  unfold cnStep
  rw [writeInterior_zero, pinBoundary_zero _ _ _ (by omega)]

/-- The upper boundary cell of every post-step snapshot holds the oracle
value at the step's next backward time. -/
theorem cnSnap_succ_top (P : CNInputs) (hn : 1 ≤ P.nSpace) (k : ℕ) :
    cnSnap P (k + 1) P.nSpace = upperBC P ((k : ℕ) * dTau P + dTau P) := by
  rw [cnSnap_succ]
  unfold cnStep
  rw [writeInterior_top _ _ _ hn, pinBoundary_top]

/-- Every interior cell of a post-step snapshot holds the corresponding entry
of that step's tridiagonal solve. -/
theorem cnSnap_succ_interior (P : CNInputs) (k : ℕ) {i : ℕ} (h1 : 1 ≤ i)
    (h2 : i ≤ P.nSpace - 1) :
    cnSnap P (k + 1) i = (stepSolve P (cnSnap P k) k).getD (i - 1) 0 := by
  rw [cnSnap_succ]
  unfold cnStep
  rw [writeInterior_interior _ _ _ h1 h2]

/-- Decomposition of the residual check: because `lhs` applies the banded
operator to windows of the full `v_next` -- whose end cells hold the pinned
boundary values, not zeros -- each entry of `lhs - rhs_vector` is the true
interior residual row plus a boundary contribution at the first and last
interior rows. -/
theorem stepResidualDiff_decomp (P : CNInputs) (hn : 2 ≤ P.nSpace) (k j : ℕ)
    (hj : j < mInterior P) :
    stepResidualDiff P k j =
      tridiagMul (lowerArr P) (diagArr P) (upperArr P)
          (fun i => (stepSolve P (cnSnap P k) k).getD i 0) (mInterior P) j -
        stepRhs P (cnSnap P k) k j +
        (if j = 0 then Acoef P 0 * lowerBC P ((k : ℕ) * dTau P + dTau P) else 0) +
        (if j = mInterior P - 1 then
          Ccoef P (mInterior P - 1) * upperBC P ((k : ℕ) * dTau P + dTau P) else 0) := by
  have hm : mInterior P = P.nSpace - 1 := rfl
  have hsz : 1 ≤ P.nSpace := by omega
  have hterm2 : Bcoef P j * cnSnap P (k + 1) (j + 1) =
      diagArr P j * (stepSolve P (cnSnap P k) k).getD j 0 := by
    rw [cnSnap_succ_interior P k (by omega) (by omega)]
    simp [diagArr]
  have hterm1 : Acoef P j * cnSnap P (k + 1) j =
      (if j = 0 then 0
        else lowerArr P j * (stepSolve P (cnSnap P k) k).getD (j - 1) 0) +
      (if j = 0 then Acoef P 0 * lowerBC P ((k : ℕ) * dTau P + dTau P) else 0) := by
    by_cases hj0 : j = 0
    · subst hj0
      rw [if_pos rfl, if_pos rfl, cnSnap_succ_zero P hsz k]
      ring
    · rw [if_neg hj0, if_neg hj0,
        cnSnap_succ_interior P k (by omega) (by omega), lowerArr, if_neg hj0]
      ring
  have hterm3 : Ccoef P j * cnSnap P (k + 1) (j + 2) =
      (if j = mInterior P - 1 then 0
        else upperArr P j * (stepSolve P (cnSnap P k) k).getD (j + 1) 0) +
      (if j = mInterior P - 1 then
        Ccoef P (mInterior P - 1) * upperBC P ((k : ℕ) * dTau P + dTau P) else 0) := by
    by_cases hjm : j = mInterior P - 1
    · rw [if_pos hjm, if_pos hjm]
      have hj2 : j + 2 = P.nSpace := by omega
      rw [hj2, cnSnap_succ_top P hsz k, hjm]
      ring
    · rw [if_neg hjm, if_neg hjm,
        cnSnap_succ_interior P k (i := j + 2) (by omega) (by omega), upperArr, if_neg hjm]
      norm_num
  unfold stepResidualDiff
  simp only [tridiagMul]
  rw [hterm1, hterm2, hterm3]
  ring

/-! ## Evaluation of the small solve `P1` -/

theorem P1_volatility : P1.volatility = 1 := rfl

theorem P1_riskFreeRate : P1.riskFreeRate = 0 := rfl

theorem P1_dividendYield : P1.dividendYield = 0 := rfl

theorem P1_strike_val : P1.strike = 1 := rfl

theorem P1_nSpace_val : P1.nSpace = 3 := rfl

theorem P1_nTime_val : P1.nTime = 1 := rfl

theorem P1_sMax : sMax P1 = 3 := by norm_num [sMax, sMaxSeed, P1]

theorem P1_dS : dS P1 = 1 := by norm_num [dS, sMax, sMaxSeed, P1]

theorem P1_dTau : dTau P1 = 1 := by norm_num [dTau, P1]

theorem P1_m : mInterior P1 = 2 := by norm_num [mInterior, P1]

theorem P1_alpha0 : alpha P1 0 = 0.25 := by
  norm_num [alpha, sVals, P1_dS, P1_dTau, P1_volatility, P1_riskFreeRate, P1_dividendYield]

theorem P1_alpha1 : alpha P1 1 = 1 := by
  norm_num [alpha, sVals, P1_dS, P1_dTau, P1_volatility, P1_riskFreeRate, P1_dividendYield]

theorem P1_beta0 : beta P1 0 = -0.5 := by
  norm_num [beta, sVals, P1_dS, P1_dTau, P1_volatility, P1_riskFreeRate, P1_dividendYield]

theorem P1_beta1 : beta P1 1 = -2 := by
  norm_num [beta, sVals, P1_dS, P1_dTau, P1_volatility, P1_riskFreeRate, P1_dividendYield]

theorem P1_gamma0 : gamma P1 0 = 0.25 := by
  norm_num [gamma, sVals, P1_dS, P1_dTau, P1_volatility, P1_riskFreeRate, P1_dividendYield]

theorem P1_gamma1 : gamma P1 1 = 1 := by
  norm_num [gamma, sVals, P1_dS, P1_dTau, P1_volatility, P1_riskFreeRate, P1_dividendYield]

theorem P1_lower0 : lowerArr P1 0 = 0 := by simp [lowerArr]

theorem P1_lower1 : lowerArr P1 1 = -1 := by
  norm_num [lowerArr, Acoef, P1_alpha1]

theorem P1_diag0 : diagArr P1 0 = 1.5 := by
  norm_num [diagArr, Bcoef, P1_beta0]

theorem P1_diag1 : diagArr P1 1 = 3 := by
  norm_num [diagArr, Bcoef, P1_beta1]

theorem P1_upper0 : upperArr P1 0 = -0.25 := by
  norm_num [upperArr, P1_m, Ccoef, P1_gamma0]

theorem P1_upper1 : upperArr P1 1 = 0 := by
  norm_num [upperArr, P1_m]

theorem P1_lowerBC (t : ℝ) : lowerBC P1 t = 0 := by
  show (0.0 : ℝ) = 0
  norm_num

theorem P1_upperBC (t : ℝ) : upperBC P1 t = 2 := by
  show sMax P1 * Real.exp (-P1.dividendYield * t) -
      P1.strike * Real.exp (-P1.riskFreeRate * t) = 2
  rw [P1_sMax, P1_dividendYield, P1_strike_val, P1_riskFreeRate]
  norm_num [Real.exp_zero]

theorem P1_dominant :
    ∀ j, j < 2 → |lowerArr P1 j| + |upperArr P1 j| + 1e-12 ≤ |diagArr P1 j| := by
  intro j hj
  interval_cases j
  · rw [P1_lower0, P1_upper0, P1_diag0]
    norm_num [abs_of_pos]
  · rw [P1_lower1, P1_upper1, P1_diag1]
    norm_num [abs_of_pos]

/-! ## Claim C1: what the residual check folds into `residual_norm` -/

/-- C1 counterexample: at the concrete solve `P1` the quantity folded into
`residual_norm` at step 0 is 2, while the l-infinity norm of
`A_int · x - b_adj` (the residual of the interior tridiagonal system actually
handed to the solver, with its returned solution) is 0, so the two differ:
the source's `lhs` applies the banded operator across the pinned boundary
cells of `v_next`, re-adding the boundary contribution that `b_adj` had
subtracted. -/
theorem C1_counterexample :
    stepResidual P1 0 ≠
      linf (fun j =>
        tridiagMul (lowerArr P1) (diagArr P1) (upperArr P1)
            (fun i => (stepSolve P1 (cnSnap P1 0) 0).getD i 0) (mInterior P1) j -
          stepRhs P1 (cnSnap P1 0) 0 j) (mInterior P1) := by
  have hm : mInterior P1 = 2 := P1_m
  have hss : stepSolve P1 (cnSnap P1 0) 0 =
      solve_tridiagonal (lowerArr P1) (diagArr P1) (upperArr P1)
        (stepRhs P1 (cnSnap P1 0) 0) 2 := by
    rw [stepSolve, hm]
  have hflo := no_floor_of_dominant (lowerArr P1) (diagArr P1) (upperArr P1) 2 P1_dominant
  have hrows := thomas_rows_getD (lowerArr P1) (diagArr P1) (upperArr P1)
    (stepRhs P1 (cnSnap P1 0) 0) 2 hflo
  have hC1v : Ccoef P1 1 = -1 := by norm_num [Ccoef, P1_gamma1]
  -- the vector of the claim is identically zero
  have hzero : ∀ j, j < mInterior P1 →
      (tridiagMul (lowerArr P1) (diagArr P1) (upperArr P1)
          (fun i => (stepSolve P1 (cnSnap P1 0) 0).getD i 0) (mInterior P1) j -
        stepRhs P1 (cnSnap P1 0) 0 j) = (fun _ => (0 : ℝ)) j := by
    intro j hj
    rw [hm] at hj
    simp only [hss, hm]
    rw [hrows j hj]
    ring
  have hR : linf (fun j =>
      tridiagMul (lowerArr P1) (diagArr P1) (upperArr P1)
          (fun i => (stepSolve P1 (cnSnap P1 0) 0).getD i 0) (mInterior P1) j -
        stepRhs P1 (cnSnap P1 0) 0 j) (mInterior P1) = 0 := by
    rw [linf_congr hzero, hm]
    rw [show (2 : ℕ) = 1 + 1 from rfl, linf_succ, linf_succ]
    norm_num [linf]
  -- the folded quantity at step 0 is 2
  have hdiff : ∀ j, j < mInterior P1 → stepResidualDiff P1 0 j =
      (fun j => if j = 1 then (-2 : ℝ) else 0) j := by
    intro j hj
    have hd := stepResidualDiff_decomp P1 (by norm_num [P1]) 0 j hj
    rw [hm] at hj
    rw [hd]
    simp only [hss, hm]
    rw [hrows j hj, P1_lowerBC, P1_upperBC]
    interval_cases j
    · norm_num
    · norm_num [hC1v]
  have hL : stepResidual P1 0 = 2 := by
    unfold stepResidual
    rw [linf_congr hdiff, hm]
    rw [show (2 : ℕ) = 1 + 1 from rfl, linf_succ, linf_succ]
    norm_num [linf]
  rw [hL, hR]
  norm_num

/-- C1 (amended): what each step folds into `residual_norm` is the
l-infinity norm of `A_int · x - b_adj` PLUS the re-added boundary
contributions `A[0] * V(0, tau')` in the first interior row and
`C[m-1] * V(s_max, tau')` in the last one; it equals the interior
linear-system residual alone only when both boundary products vanish. -/
theorem C1_step_residual_amended (P : CNInputs) (hn : 2 ≤ P.nSpace) (k : ℕ) :
    stepResidual P k =
      linf (fun j =>
        tridiagMul (lowerArr P) (diagArr P) (upperArr P)
            (fun i => (stepSolve P (cnSnap P k) k).getD i 0) (mInterior P) j -
          stepRhs P (cnSnap P k) k j +
          (if j = 0 then Acoef P 0 * lowerBC P ((k : ℕ) * dTau P + dTau P) else 0) +
          (if j = mInterior P - 1 then
            Ccoef P (mInterior P - 1) * upperBC P ((k : ℕ) * dTau P + dTau P) else 0))
        (mInterior P) := by
  unfold stepResidual
  exact linf_congr (fun j hj => stepResidualDiff_decomp P hn k j hj)

/-- Witness for C1's amended theorem at the concrete solve `P1`, step 0. -/
theorem C1_step_residual_amended_witness :
    2 ≤ P1.nSpace ∧
      stepResidual P1 0 =
        linf (fun j =>
          tridiagMul (lowerArr P1) (diagArr P1) (upperArr P1)
              (fun i => (stepSolve P1 (cnSnap P1 0) 0).getD i 0) (mInterior P1) j -
            stepRhs P1 (cnSnap P1 0) 0 j +
            (if j = 0 then Acoef P1 0 * lowerBC P1 ((0 : ℕ) * dTau P1 + dTau P1) else 0) +
            (if j = mInterior P1 - 1 then
              Ccoef P1 (mInterior P1 - 1) * upperBC P1 ((0 : ℕ) * dTau P1 + dTau P1) else 0))
          (mInterior P1) :=
  ⟨by norm_num [P1], C1_step_residual_amended P1 (by norm_num [P1]) 0⟩

/-! ## Claims C5 and C6: the tridiagonal solver -/

/-- C5: for every `n >= 1` and every system in which no raw pivot denominator
has magnitude below `1e-12` (so the numerical floor never fires), the vector
returned by `solve_tridiagonal` has length `n` and satisfies `T·x = b`, where
`T` is the tridiagonal matrix formed from the three vectors with `lower 0`
and `upper (n-1)` ignored. -/
theorem C5_thomas_exact (lower diag upper rhs : ℕ → ℝ) (n : ℕ) (hn : 1 ≤ n)
    (H : ∀ i, i < n → 1e-12 ≤ |denomRaw lower diag upper n i|) :
    (solve_tridiagonal lower diag upper rhs n).length = n ∧
    ∀ j, j < n →
      tridiagMul lower diag upper
        (fun i => (solve_tridiagonal lower diag upper rhs n).getD i 0) n j = rhs j := by
  constructor
  · unfold solve_tridiagonal
    rw [if_neg (by omega)]
    simp
  · exact thomas_rows_getD lower diag upper rhs n H

/-- Witness for C5: the 2-by-2 system with `lower = upper = rhs = 1` and
`diag = 2` (pivots `2` and `3/2`). -/
theorem C5_thomas_exact_witness :
    (∀ i, i < 2 →
      (1e-12 : ℝ) ≤ |denomRaw (fun _ => 1) (fun _ => 2) (fun _ => 1) 2 i|) ∧
    (∀ j, j < 2 →
      tridiagMul (fun _ => (1 : ℝ)) (fun _ => 2) (fun _ => 1)
        (fun i =>
          (solve_tridiagonal (fun _ => 1) (fun _ => 2) (fun _ => 1) (fun _ => 1) 2).getD i 0)
        2 j = (fun _ => (1 : ℝ)) j) := by
  have H : ∀ i, i < 2 →
      (1e-12 : ℝ) ≤ |denomRaw (fun _ => 1) (fun _ => 2) (fun _ => 1) 2 i| := by
    intro i hi
    interval_cases i
    · rw [denomRaw_zero]
      norm_num [abs_of_pos]
    · have h := denomRaw_succ_eq (fun _ => (1 : ℝ)) (fun _ => 2) (fun _ => 1) 2 0
      norm_num [cprime, denom, denomRaw_zero, guard] at h
      rw [h]
      norm_num [abs_of_pos]
  exact ⟨H, (C5_thomas_exact (fun _ => 1) (fun _ => 2) (fun _ => 1) (fun _ => 1) 2
    (by norm_num) H).2⟩

/-- C6: the solver is total.  The pivot floor replaces every denominator of
magnitude below `1e-12` by `1e-12` with its sign (zero counted positive),
every denominator actually divided by (`denom`, used by both `c_prime` and
`d_prime`) has magnitude at least `1e-12`, and `n = 0` yields the empty
vector. -/
theorem C6_solver_total :
    (∀ d : ℝ, |d| < 1e-12 → guard d = if 0 ≤ d then 1e-12 else -1e-12) ∧
    (∀ lower diag upper : ℕ → ℝ, ∀ n i : ℕ,
      1e-12 ≤ |denom lower diag upper n i|) ∧
    (∀ lower diag upper rhs : ℕ → ℝ,
      solve_tridiagonal lower diag upper rhs 0 = []) := by
  refine ⟨fun d h => guard_small h, fun lower diag upper n i => guard_abs_ge _,
    fun lower diag upper rhs => ?_⟩
  unfold solve_tridiagonal
  rw [if_pos rfl]

/-- Witness for C6: the floor turns a zero pivot into `+1e-12`, and the
empty system returns the empty vector. -/
theorem C6_solver_total_witness :
    guard 0 = 1e-12 ∧
      solve_tridiagonal (fun _ => 1) (fun _ => 1) (fun _ => 1) (fun _ => 1) 0 = [] := by
  constructor
  · have h := C6_solver_total.1 0 (by norm_num)
    rw [h]
    norm_num
  · exact C6_solver_total.2.2 _ _ _ _

/-! ## Claim C3: the boundary cells of the returned solution -/

/-- C3: after at least one step the returned solution still carries the
boundary-oracle values at `tau = expiry` in its two boundary cells, so
`boundary_spread` has the closed form `|s_max e^{-qT} - K e^{-rT}|` for a
call and `K e^{-rT}` for a put, independently of the grid sizes and of the
interior solve. -/
theorem C3_boundary_spread (P : CNInputs) (hns : 2 ≤ P.nSpace) (hnt : 1 ≤ P.nTime)
    (hK : 0 < P.strike) :
    solution P 0 = lowerBC P P.expiry ∧
    solution P P.nSpace = upperBC P P.expiry ∧
    boundarySpread P =
      (match P.optionType with
        | OptionType.call =>
            |sMax P * Real.exp (-P.dividendYield * P.expiry) -
              P.strike * Real.exp (-P.riskFreeRate * P.expiry)|
        | OptionType.put => P.strike * Real.exp (-P.riskFreeRate * P.expiry)) := by
  have hcast : ((P.nTime - 1 : ℕ) : ℝ) = (P.nTime : ℝ) - 1 := by
    rw [Nat.cast_sub hnt, Nat.cast_one]
  have hz : (P.nTime : ℝ) ≠ 0 := Nat.cast_ne_zero.mpr (by omega)
  have htau : ((P.nTime - 1 : ℕ) : ℝ) * dTau P + dTau P = P.expiry := by
    rw [hcast, dTau]
    field_simp
    ring
  have hstep : P.nTime = (P.nTime - 1) + 1 := by omega
  have h0 : solution P 0 = lowerBC P P.expiry := by
    unfold solution
    rw [hstep, cnSnap_succ_zero P (by omega) (P.nTime - 1), htau]
  have htop : solution P P.nSpace = upperBC P P.expiry := by
    unfold solution
    rw [hstep, cnSnap_succ_top P (by omega) (P.nTime - 1), htau]
  refine ⟨h0, htop, ?_⟩
  unfold boundarySpread
  rw [h0, htop]
  rcases hOT : P.optionType with _ | _
  · simp [lowerBC, upperBC, hOT]
    norm_num
  · simp only [lowerBC, upperBC, hOT]
    rw [abs_of_pos (by positivity)]
    norm_num

/-- Witness for C3 at the concrete call solve `P1`. -/
theorem C3_boundary_spread_witness :
    0 < P1.strike ∧
      boundarySpread P1 =
        (match P1.optionType with
          | OptionType.call =>
              |sMax P1 * Real.exp (-P1.dividendYield * P1.expiry) -
                P1.strike * Real.exp (-P1.riskFreeRate * P1.expiry)|
          | OptionType.put => P1.strike * Real.exp (-P1.riskFreeRate * P1.expiry)) :=
  ⟨by norm_num [P1],
    (C3_boundary_spread P1 (by norm_num [P1]) (by norm_num [P1]) (by norm_num [P1])).2.2⟩

/-! ## Claim C7: per-step pinning and the interior writes -/

/-- C7: at every backward time step the two boundary cells of the produced
snapshot hold exactly the boundary-oracle values at the step's next backward
time (`0` and `s_max e^{-q tau} - K e^{-r tau}` for a call,
`K e^{-r tau}` and `0` for a put, which is what `lowerBC` and `upperBC`
compute), and the interior tridiagonal solve only writes cells `1 .. N_S-1`,
never the boundary cells. -/
theorem C7_boundary_pinned (P : CNInputs) (hns : 2 ≤ P.nSpace) (k : ℕ)
    (_hk : k < P.nTime) :
    cnSnap P (k + 1) 0 = lowerBC P ((k : ℕ) * dTau P + dTau P) ∧
    cnSnap P (k + 1) P.nSpace = upperBC P ((k : ℕ) * dTau P + dTau P) ∧
    (∀ i, 1 ≤ i → i ≤ P.nSpace - 1 →
      cnSnap P (k + 1) i = (stepSolve P (cnSnap P k) k).getD (i - 1) 0) :=
  ⟨cnSnap_succ_zero P (by omega) k, cnSnap_succ_top P (by omega) k,
    fun _i h1 h2 => cnSnap_succ_interior P k h1 h2⟩

/-- Witness for C7 at the concrete solve `P1`, step 0. -/
theorem C7_boundary_pinned_witness :
    cnSnap P1 (0 + 1) 0 = lowerBC P1 ((0 : ℕ) * dTau P1 + dTau P1) ∧
    cnSnap P1 (0 + 1) P1.nSpace = upperBC P1 ((0 : ℕ) * dTau P1 + dTau P1) ∧
    (∀ i, 1 ≤ i → i ≤ P1.nSpace - 1 →
      cnSnap P1 (0 + 1) i = (stepSolve P1 (cnSnap P1 0) 0).getD (i - 1) 0) :=
  C7_boundary_pinned P1 (by norm_num [P1]) 0 (by norm_num [P1])

/-! ## Claim C8: the Crank-Nicolson coefficients -/

/-- C8: for interior node `i` (with `s_i = i * d_s` the grid node), the
coefficient arrays hold the stated formulas -- entry `i - 1` of each array
corresponds to node `i` -- and the implicit and explicit operators are
`(-alpha, 1 - beta, -gamma)` and `(alpha, 1 + beta, gamma)`.  All of these
are functions of the node index alone, built before the time loop. -/
theorem C8_coefficients (P : CNInputs) (i : ℕ) (h1 : 1 ≤ i) (_h2 : i ≤ P.nSpace - 1) :
    alpha P (i - 1) =
      0.25 * dTau P *
        (P.volatility * P.volatility * (sGrid P i) ^ 2 / (dS P) ^ 2 -
          (P.riskFreeRate - P.dividendYield) * sGrid P i / dS P) ∧
    beta P (i - 1) =
      -0.5 * dTau P *
        (P.volatility * P.volatility * (sGrid P i) ^ 2 / (dS P) ^ 2 + P.riskFreeRate) ∧
    gamma P (i - 1) =
      0.25 * dTau P *
        (P.volatility * P.volatility * (sGrid P i) ^ 2 / (dS P) ^ 2 +
          (P.riskFreeRate - P.dividendYield) * sGrid P i / dS P) ∧
    Acoef P (i - 1) = -alpha P (i - 1) ∧
    Bcoef P (i - 1) = 1 - beta P (i - 1) ∧
    Ccoef P (i - 1) = -gamma P (i - 1) ∧
    Dcoef P (i - 1) = alpha P (i - 1) ∧
    Ecoef P (i - 1) = 1 + beta P (i - 1) ∧
    Fcoef P (i - 1) = gamma P (i - 1) := by
  have hsv : sVals P (i - 1) = sGrid P i := by
    unfold sVals sGrid
    rw [Nat.sub_add_cancel h1]
  refine ⟨?_, ?_, ?_, rfl, by norm_num [Bcoef], rfl, rfl, by norm_num [Ecoef], rfl⟩
  · rw [alpha, hsv]
  · rw [beta, hsv]
  · rw [gamma, hsv]

/-- Witness for C8 at `P1`, interior node 1. -/
theorem C8_coefficients_witness :
    1 ≤ P1.nSpace - 1 ∧
      alpha P1 (1 - 1) =
        0.25 * dTau P1 *
          (P1.volatility * P1.volatility * (sGrid P1 1) ^ 2 / (dS P1) ^ 2 -
            (P1.riskFreeRate - P1.dividendYield) * sGrid P1 1 / dS P1) :=
  ⟨by norm_num [P1], (C8_coefficients P1 1 (by norm_num) (by norm_num [P1])).1⟩

/-! ## Claim C10: the finite-difference Greeks -/

/-- C10: with fewer than 3 nodes both central differences are unreported;
otherwise, with `idx = clamp(searchsorted(grid, spot), 1, size - 2)`, order 1
returns `(v[idx+1] - v[idx-1]) / (2 d_s)` and order 2 returns
`(v[idx+1] - 2 v[idx] + v[idx-1]) / d_s^2`, with `d_s = grid 1 - grid 0`. -/
theorem C10_finite_difference :
    (∀ values grid : ℕ → ℝ, ∀ size : ℕ, ∀ spot : ℝ, size < 3 →
      finite_difference values grid size spot 1 = .ok none ∧
      finite_difference values grid size spot 2 = .ok none) ∧
    (∀ values grid : ℕ → ℝ, ∀ size : ℕ, ∀ spot : ℝ, 3 ≤ size →
      finite_difference values grid size spot 1 =
        .ok (some ((values (min (max (searchsorted grid size spot) 1) (size - 2) + 1) -
            values (min (max (searchsorted grid size spot) 1) (size - 2) - 1)) /
          (2.0 * (grid 1 - grid 0)))) ∧
      finite_difference values grid size spot 2 =
        .ok (some ((values (min (max (searchsorted grid size spot) 1) (size - 2) + 1) -
            2.0 * values (min (max (searchsorted grid size spot) 1) (size - 2)) +
            values (min (max (searchsorted grid size spot) 1) (size - 2) - 1)) /
          ((grid 1 - grid 0) * (grid 1 - grid 0))))) := by
  constructor
  · intro values grid size spot h
    constructor <;> (unfold finite_difference; rw [if_pos h])
  · intro values grid size spot h
    constructor <;> (unfold finite_difference; rw [if_neg (not_lt.mpr h)]; norm_num)

/-- Witness for C10: a 2-node vector yields no Delta, and on a 5-node grid
the order-1 difference is the claimed quotient. -/
theorem C10_finite_difference_witness :
    finite_difference (fun i : ℕ => (i : ℝ)) (fun i : ℕ => (i : ℝ)) 2 2.5 1 = .ok none ∧
    finite_difference (fun i : ℕ => (i : ℝ)) (fun i : ℕ => (i : ℝ)) 5 2.5 1 =
      .ok (some (((fun i : ℕ => (i : ℝ))
            (min (max (searchsorted (fun i : ℕ => (i : ℝ)) 5 2.5) 1) (5 - 2) + 1) -
          (fun i : ℕ => (i : ℝ))
            (min (max (searchsorted (fun i : ℕ => (i : ℝ)) 5 2.5) 1) (5 - 2) - 1)) /
        (2.0 * ((fun i : ℕ => (i : ℝ)) 1 - (fun i : ℕ => (i : ℝ)) 0)))) :=
  ⟨(C10_finite_difference.1 _ _ 2 2.5 (by norm_num)).1,
    (C10_finite_difference.2 _ _ 5 2.5 (by norm_num)).1⟩

/-! ## Claim C9: failed bump reprices only lose the corresponding Greek -/

/-- C9: for any behaviour of the bumped reprices (the `attempt` oracle,
`none` = the reprice raised), the orchestrator still produces the result: the
fair value, price, Delta, Gamma, Theta, diagnostics and warnings are exactly
those of the no-failure path; a failure in either Vega reprice makes only
Vega absent and a failure in either Rho reprice makes only Rho absent, while
the other Greek keeps its no-failure value whenever its own reprices
succeed with their true values. -/
theorem C9_bump_failure (req : PDERequest) (attempt : Option ℝ → Option ℝ → Option ℝ) :
    ((solveWith req attempt).fair_value = (solve_black_scholes_pde req).fair_value ∧
      (solveWith req attempt).price = (solve_black_scholes_pde req).price ∧
      (solveWith req attempt).greeks.delta = (solve_black_scholes_pde req).greeks.delta ∧
      (solveWith req attempt).greeks.gamma = (solve_black_scholes_pde req).greeks.gamma ∧
      (solveWith req attempt).greeks.theta = (solve_black_scholes_pde req).greeks.theta ∧
      (solveWith req attempt).diagnostics = (solve_black_scholes_pde req).diagnostics ∧
      (solveWith req attempt).warnings = (solve_black_scholes_pde req).warnings) ∧
    ((attempt (some (bumpSigmaSize req)) none = none ∨
        attempt (some (-bumpSigmaSize req)) none = none) →
      (solveWith req attempt).greeks.vega = none) ∧
    ((attempt none (some bumpRateSize) = none ∨
        attempt none (some (-bumpRateSize)) = none) →
      (solveWith req attempt).greeks.rho = none) ∧
    ((attempt none (some bumpRateSize) = honestAttempt req none (some bumpRateSize) ∧
        attempt none (some (-bumpRateSize)) = honestAttempt req none (some (-bumpRateSize))) →
      (solveWith req attempt).greeks.rho = (solve_black_scholes_pde req).greeks.rho) ∧
    ((attempt (some (bumpSigmaSize req)) none =
          honestAttempt req (some (bumpSigmaSize req)) none ∧
        attempt (some (-bumpSigmaSize req)) none =
          honestAttempt req (some (-bumpSigmaSize req)) none) →
      (solveWith req attempt).greeks.vega = (solve_black_scholes_pde req).greeks.vega) := by
  refine ⟨⟨rfl, rfl, rfl, rfl, rfl, rfl, rfl⟩, ?_, ?_, ?_, ?_⟩
  · intro h
    show vegaWith req attempt = none
    rcases h with h | h
    · rw [vegaWith, h]
    · cases ha : attempt (some (bumpSigmaSize req)) none <;>
        rw [vegaWith, ha, h]
  · intro h
    show rhoWith req attempt = none
    rcases h with h | h
    · rw [rhoWith, h]
    · cases ha : attempt none (some bumpRateSize) <;>
        rw [rhoWith, ha, h]
  · intro h
    show rhoWith req attempt = rhoWith req (honestAttempt req)
    rw [rhoWith, h.1, h.2]
    rfl
  · intro h
    show vegaWith req attempt = vegaWith req (honestAttempt req)
    rw [vegaWith, h.1, h.2]
    rfl

/-- Witness for C9: with an oracle that always fails, Vega and Rho are both
absent. -/
theorem C9_bump_failure_witness :
    (solveWith reqA (fun _ _ => none)).greeks.vega = none ∧
    (solveWith reqA (fun _ _ => none)).greeks.rho = none :=
  ⟨(C9_bump_failure reqA (fun _ _ => none)).2.1 (Or.inl rfl),
    (C9_bump_failure reqA (fun _ _ => none)).2.2.1 (Or.inl rfl)⟩

/-! ## Claim C4: exact characterisation of the warnings list -/

/-- C4: the warnings list contains the high-residual warning (with the
residual value) exactly when `residual_norm > 1e-3`, contains the
boundary-spread warning exactly when
`boundary_spread > max(1, 0.05 * fair_value)`, and contains nothing else. -/
theorem C4_warnings (req : PDERequest) :
    (Warning.highResidual (solve_black_scholes_pde req).diagnostics.residual_norm ∈
        (solve_black_scholes_pde req).warnings ↔
      (solve_black_scholes_pde req).diagnostics.residual_norm > 1e-3) ∧
    (Warning.boundarySpreadLarge ∈ (solve_black_scholes_pde req).warnings ↔
      (solve_black_scholes_pde req).diagnostics.boundary_spread >
        max 1.0 (0.05 * (solve_black_scholes_pde req).fair_value)) ∧
    (∀ w ∈ (solve_black_scholes_pde req).warnings,
      w = Warning.highResidual (solve_black_scholes_pde req).diagnostics.residual_norm ∨
        w = Warning.boundarySpreadLarge) := by
  have hw : (solve_black_scholes_pde req).warnings = warningsOf req := rfl
  have hres : (solve_black_scholes_pde req).diagnostics.residual_norm =
      residualNorm (requestInputs req) := rfl
  have hbs : (solve_black_scholes_pde req).diagnostics.boundary_spread =
      boundarySpread (requestInputs req) := rfl
  have hfv : (solve_black_scholes_pde req).fair_value = fairValueOf req := rfl
  rw [hw, hres, hbs, hfv]
  unfold warningsOf
  by_cases hr : residualNorm (requestInputs req) > 1e-3 <;>
    by_cases hb : boundarySpread (requestInputs req) > max 1.0 (0.05 * fairValueOf req) <;>
    simp only [hr, hb, if_true, if_false, if_pos, if_neg, not_false_iff] <;>
    refine ⟨?_, ?_, ?_⟩ <;>
    simp [hr, hb]

/-! ## Claim C2: scenario 1 produces warnings in both configurations

The chain: the scenario-1 coefficient arrays are strictly diagonally
dominant, so the pivot floor never fires and the interior solve is exact; by
the residual decomposition the step-0 residual entry of the last interior row
is exactly `C[m-1] * V(s_max, d_tau)`, which is about `2 * 500`, far above
the `1e-3` warning threshold -- so the high-residual warning fires already at
the default settings. -/

theorem alpha_simplify (P : CNInputs) (hds : dS P ≠ 0) (j : ℕ) :
    alpha P j =
      0.25 * dTau P *
        (P.volatility * P.volatility * ((j : ℝ) + 1) ^ 2 -
          (P.riskFreeRate - P.dividendYield) * ((j : ℝ) + 1)) := by
  unfold alpha sVals
  push_cast
  field_simp
  ring

theorem beta_simplify (P : CNInputs) (hds : dS P ≠ 0) (j : ℕ) :
    beta P j =
      -0.5 * dTau P *
        (P.volatility * P.volatility * ((j : ℝ) + 1) ^ 2 + P.riskFreeRate) := by
  unfold beta sVals
  push_cast
  field_simp
  ring

theorem gamma_simplify (P : CNInputs) (hds : dS P ≠ 0) (j : ℕ) :
    gamma P j =
      0.25 * dTau P *
        (P.volatility * P.volatility * ((j : ℝ) + 1) ^ 2 +
          (P.riskFreeRate - P.dividendYield) * ((j : ℝ) + 1)) := by
  unfold gamma sVals
  push_cast
  field_simp
  ring

/-- Strict diagonal dominance of the scenario-1 interior system (any
`s_max`): the margin is in fact larger than 1. -/
theorem scenario1_dominant (P : CNInputs) (hds : dS P ≠ 0)
    (hvol : P.volatility = 0.2) (hr : P.riskFreeRate = 0.05)
    (hq : P.dividendYield = 0) (hdt : dTau P = 1 / 800) :
    ∀ j, j < 399 → |lowerArr P j| + |upperArr P j| + 1e-12 ≤ |diagArr P j| := by
  intro j hj
  have hc1 : (1 : ℝ) ≤ (j : ℝ) + 1 := by
    have := Nat.cast_nonneg (α := ℝ) j
    linarith
  have hc399 : (j : ℝ) + 1 ≤ 399 := by
    have : (j : ℝ) ≤ 398 := by exact_mod_cast Nat.le_of_lt_succ hj
    linarith
  have ha : alpha P j = (0.04 * ((j : ℝ) + 1) ^ 2 - 0.05 * ((j : ℝ) + 1)) / 3200 := by
    rw [alpha_simplify P hds j, hvol, hr, hq, hdt]
    ring
  have hg : gamma P j = (0.04 * ((j : ℝ) + 1) ^ 2 + 0.05 * ((j : ℝ) + 1)) / 3200 := by
    rw [gamma_simplify P hds j, hvol, hr, hq, hdt]
    ring
  have hB : diagArr P j = 1 + (0.04 * ((j : ℝ) + 1) ^ 2 + 0.05) / 1600 := by
    unfold diagArr Bcoef
    rw [beta_simplify P hds j, hvol, hr, hdt]
    ring
  have hBpos : 0 < diagArr P j := by
    rw [hB]
    nlinarith
  have haabs : |alpha P j| ≤ (0.04 * ((j : ℝ) + 1) ^ 2 + 0.05 * ((j : ℝ) + 1)) / 3200 := by
    rw [ha, abs_le]
    constructor <;> nlinarith
  have hgabs : |gamma P j| ≤ (0.04 * ((j : ℝ) + 1) ^ 2 + 0.05 * ((j : ℝ) + 1)) / 3200 := by
    rw [hg, abs_le]
    constructor <;> nlinarith
  have hla : |lowerArr P j| ≤ |alpha P j| := by
    unfold lowerArr
    by_cases hj0 : j = 0
    · rw [if_pos hj0]
      simp [abs_nonneg]
    · rw [if_neg hj0]
      unfold Acoef
      rw [abs_neg]
  have hua : |upperArr P j| ≤ |gamma P j| := by
    unfold upperArr
    by_cases hjm : j = mInterior P - 1
    · rw [if_pos hjm]
      simp [abs_nonneg]
    · rw [if_neg hjm]
      unfold Ccoef
      rw [abs_neg]
  rw [abs_of_pos hBpos, hB]
  linarith [haabs, hgabs, hla, hua]

/-- In exact arithmetic the scenario-1 residual norm is huge (at least 19):
the interior solve is exact, so the step-0 residual entry of the last
interior row is exactly `C[m-1] * V(s_max, d_tau)`. -/
theorem scenario1_residual_large (P : CNInputs)
    (hOT : P.optionType = OptionType.call)
    (hK : P.strike = 100) (hq : P.dividendYield = 0) (hr : P.riskFreeRate = 0.05)
    (hvol : P.volatility = 0.2) (hexp : P.expiry = 1)
    (hns : P.nSpace = 400) (hnt : P.nTime = 800) (hsm : 110 ≤ sMax P) :
    residualNorm P > 1e-3 := by
  have hdsne : dS P ≠ 0 := by
    rw [dS, hns]
    have : (0 : ℝ) < sMax P := by linarith
    positivity
  have hdt : dTau P = 1 / 800 := by
    rw [dTau, hexp, hnt]
    norm_num
  have hm : mInterior P = 399 := by
    rw [mInterior, hns]
  have hj398 : 398 < mInterior P := by
    rw [hm]
    norm_num
  have hdom := scenario1_dominant P hdsne hvol hr hq hdt
  have hflo := no_floor_of_dominant (lowerArr P) (diagArr P) (upperArr P) 399 hdom
  have htau : ((0 : ℕ) : ℝ) * dTau P + dTau P = 1 / 800 := by
    rw [hdt]
    norm_num
  have hub : (10 : ℝ) ≤ upperBC P (1 / 800) := by
    simp only [upperBC, hOT]
    rw [hq, hK, hr]
    have h1 : Real.exp (-(0.05 : ℝ) * (1 / 800)) ≤ 1 := by
      calc Real.exp (-(0.05 : ℝ) * (1 / 800)) ≤ Real.exp 0 :=
            Real.exp_le_exp.mpr (by norm_num)
      _ = 1 := Real.exp_zero
    have h2 : Real.exp (-(0 : ℝ) * (1 / 800)) = 1 := by
      norm_num
    rw [h2]
    nlinarith [h1, Real.exp_pos (-(0.05 : ℝ) * (1 / 800))]
  have hgam : (1.9 : ℝ) ≤ gamma P 398 := by
    rw [gamma_simplify P hdsne 398, hvol, hr, hq, hdt]
    norm_num
  have hn2 : 2 ≤ P.nSpace := by omega
  have hss : stepSolve P (cnSnap P 0) 0 =
      solve_tridiagonal (lowerArr P) (diagArr P) (upperArr P)
        (stepRhs P (cnSnap P 0) 0) 399 := by
    rw [stepSolve, hm]
  have hrow := thomas_rows_getD (lowerArr P) (diagArr P) (upperArr P)
    (stepRhs P (cnSnap P 0) 0) 399 hflo 398 (by norm_num)
  have hlast : stepResidualDiff P 0 398 = Ccoef P 398 * upperBC P (1 / 800) := by
    rw [stepResidualDiff_decomp P hn2 0 398 hj398]
    simp only [hss, hm]
    rw [hrow, htau]
    norm_num
  have habs : |stepResidualDiff P 0 398| = gamma P 398 * upperBC P (1 / 800) := by
    rw [hlast]
    unfold Ccoef
    rw [neg_mul, abs_neg]
    exact abs_of_pos (by nlinarith)
  have h1 : |stepResidualDiff P 0 398| ≤ stepResidual P 0 := by
    unfold stepResidual
    exact linf_ge _ _ 398 hj398
  have h2 : stepResidual P 0 ≤ residualNorm P :=
    stepResidual_le_residualNorm P (by rw [hnt]; norm_num)
  have h3 : (19 : ℝ) ≤ gamma P 398 * upperBC P (1 / 800) := by nlinarith
  rw [habs] at h1
  linarith

/-- The high-residual warning alone already makes the warnings list
non-empty. -/
theorem warnings_ne_nil_of_residual (req : PDERequest)
    (h : residualNorm (requestInputs req) > 1e-3) :
    (solve_black_scholes_pde req).warnings ≠ [] := by
  show warningsOf req ≠ []
  unfold warningsOf
  rw [if_pos h]
  simp

theorem reqA_sMax : sMax (requestInputs reqA) = 600 := by
  norm_num [sMax, sMaxSeed, requestInputs, reqA, orDefaultReal, orDefaultNat]

theorem reqB_sMax : sMax (requestInputs reqB) = 210 := by
  norm_num [sMax, sMaxSeed, requestInputs, reqB, reqA, orDefaultReal, orDefaultNat]

theorem reqA_residual : residualNorm (requestInputs reqA) > 1e-3 := by
  apply scenario1_residual_large (requestInputs reqA)
  · norm_num [requestInputs, reqA]
  · norm_num [requestInputs, reqA]
  · norm_num [requestInputs, reqA]
  · norm_num [requestInputs, reqA]
  · norm_num [requestInputs, reqA]
  · norm_num [requestInputs, reqA]
  · norm_num [requestInputs, reqA, orDefaultNat]
  · norm_num [requestInputs, reqA, orDefaultNat]
  · rw [reqA_sMax]
    norm_num

theorem reqB_residual : residualNorm (requestInputs reqB) > 1e-3 := by
  apply scenario1_residual_large (requestInputs reqB)
  · norm_num [requestInputs, reqB, reqA]
  · norm_num [requestInputs, reqB, reqA]
  · norm_num [requestInputs, reqB, reqA]
  · norm_num [requestInputs, reqB, reqA]
  · norm_num [requestInputs, reqB, reqA]
  · norm_num [requestInputs, reqB, reqA]
  · norm_num [requestInputs, reqB, reqA, orDefaultNat]
  · norm_num [requestInputs, reqB, reqA, orDefaultNat]
  · rw [reqB_sMax]
    norm_num

/-- C2 counterexample: for scenario 1 at the default solver settings the
warnings list is NOT empty -- in exact arithmetic the high-residual warning
fires, because the residual check's `lhs` re-adds the boundary contribution,
making `residual_norm` of order `gamma[m-1] * V(s_max, d_tau)`, far above
`1e-3`.  This refutes the claim's first conjunct. -/
theorem C2_counterexample : (solve_black_scholes_pde reqA).warnings ≠ [] :=
  warnings_ne_nil_of_residual reqA reqA_residual

/-- C2 (amended): for scenario 1 the warnings list is non-empty BOTH at the
default solver settings and with `s_max_multiplier = 2.1` (in exact
arithmetic the high-residual warning is present in both configurations). -/
theorem C2_warnings_amended :
    (solve_black_scholes_pde reqA).warnings ≠ [] ∧
    (solve_black_scholes_pde reqB).warnings ≠ [] :=
  ⟨warnings_ne_nil_of_residual reqA reqA_residual,
    warnings_ne_nil_of_residual reqB reqB_residual⟩

/-- Witness for C4: for scenario 1 at default settings the high-residual
warning is a member of the warnings list (its residual norm exceeds `1e-3`,
see `reqA_residual`), and every member is one of the two warnings. -/
theorem C4_warnings_witness :
    Warning.highResidual (solve_black_scholes_pde reqA).diagnostics.residual_norm =
        Warning.highResidual (solve_black_scholes_pde reqA).diagnostics.residual_norm ∨
      Warning.highResidual (solve_black_scholes_pde reqA).diagnostics.residual_norm =
        Warning.boundarySpreadLarge :=
  (C4_warnings reqA).2.2 _ ((C4_warnings reqA).1.mpr reqA_residual)

end PDE

